import Mathlib

/-! Whole-body image stitching (`stitching/src/main.cpp`)

A shallow embedding of the stitching pipeline of `main`:
margin trimming, extent determination, padding of the first volume,
sentinel-based coverage seeding, the accumulation loop, the central-column
trim scan, finalisation by division and the final crop.

Conventions of the embedding

* `int` values (sizes, indices, margin, pad counts) are `Int`; the 32-bit range of
  `int` is not modelled.
* Voxel samples and physical coordinates are exact rationals (`ℚ`); rounding of
  the machine floating-point types is not modelled. In particular the pad counts of
  lines 117-118 are the truncation of the exact quotient plus one, where the program
  forms the quotient and the sum in floating point and converts the result to `int`;
  the two agree when no operation rounds and the result lies in the `int` range.
* An image carries its three sizes, the origin and spacing of the stitching
  axis (index `2`, the only components `main` reads) and its samples as a
  function of the voxel index.
* The image-processing primitives of the `mia` library called by `main`
  are not part of `main.cpp`; they are modelled from their documented contracts.
  The interpolation performed by `resample` is a parameter of the model.
-/

namespace Stitching

/-! ## Data model -/

/-- Geometry of a volume: sizes along the three axes and the origin and spacing
of the stitching axis (`origin()[2]`, `spacing()[2]`). -/
structure Grid where
  sizeX : Int
  sizeY : Int
  sizeZ : Int
  originZ : ℚ
  spacingZ : ℚ
  deriving DecidableEq

/-- Modelled from the spec: the `Image` class of `miaImage.h`, a dense 3D array of scalar
samples with size, spacing and origin. Geometry plus one sample per voxel index. -/
structure Image where
  sizeX : Int
  sizeY : Int
  sizeZ : Int
  originZ : ℚ
  spacingZ : ℚ
  data : Int → Int → Int → ℚ

/-- The geometry of an image. -/
def Image.grid (im : Image) : Grid :=
  { sizeX := im.sizeX, sizeY := im.sizeY, sizeZ := im.sizeZ,
    originZ := im.originZ, spacingZ := im.spacingZ }

/-- The literal `float unique_value = -123456789.0` of `main`. -/
def unique_value : ℚ := -123456789

/-! ## Primitives of the image library -/

/-- Modelled from the spec: `subimage(vol, startX, startY, startZ, sizeX, sizeY, sizeZ)`
of `miaImageProcessing.h`, which extracts an axis-aligned sub-region. Voxel `(x, y, z)` of
the result is voxel `(startX + x, startY + y, startZ + z)` of `vol`; the origin along the
stitching axis moves with the first kept slice. -/
def subimage (vol : Image) (startX startY startZ sizeX sizeY sizeZ : Int) : Image :=
  { sizeX := sizeX, sizeY := sizeY, sizeZ := sizeZ,
    originZ := vol.originZ + startZ * vol.spacingZ,
    spacingZ := vol.spacingZ,
    data := fun x y z => vol.data (startX + x) (startY + y) (startZ + z) }

/-- Modelled from the spec: `Image::clone()` of `miaImage.h`, an independent copy. -/
def Image.clone (im : Image) : Image := im

/-- Modelled from the spec: `pad(vol, padX0, padX1, padY0, padY1, padZ0, padZ1, fillValue)`
of `miaImageProcessing.h`: a larger volume whose new border voxels hold `fillValue`, the
original data kept at its relative position and the origin moved consistently. -/
def pad (vol : Image) (padX0 padX1 padY0 padY1 padZ0 padZ1 : Int) (fillValue : ℚ) : Image :=
  { sizeX := vol.sizeX + padX0 + padX1,
    sizeY := vol.sizeY + padY0 + padY1,
    sizeZ := vol.sizeZ + padZ0 + padZ1,
    originZ := vol.originZ - padZ0 * vol.spacingZ,
    spacingZ := vol.spacingZ,
    data := fun x y z =>
      if padX0 ≤ x ∧ x < padX0 + vol.sizeX ∧ padY0 ≤ y ∧ y < padY0 + vol.sizeY ∧
          padZ0 ≤ z ∧ z < padZ0 + vol.sizeZ
      then vol.data (x - padX0) (y - padY0) (z - padZ0) else fillValue }

/-- Modelled from the spec: `threshold(src, dst, low, high)` of `miaImageProcessing.h`
writes `1` into `dst` where `src` lies in `[low, high]` and `0` elsewhere. -/
def threshold (src dst : Image) (low high : ℚ) : Image :=
  { dst with data := fun x y z =>
      if low ≤ src.data x y z ∧ src.data x y z ≤ high then 1 else 0 }

/-- Modelled from the spec: `invert_binary(src, dst)` of `miaImageProcessing.h`,
`dst = 1 - src`. -/
def invert_binary (src dst : Image) : Image :=
  { dst with data := fun x y z => 1 - src.data x y z }

/-- Modelled from the spec: `mul(a, b, dst)` of `miaImageProcessing.h`, elementwise product. -/
def mul (a b dst : Image) : Image :=
  { dst with data := fun x y z => a.data x y z * b.data x y z }

/-- Modelled from the spec: `add(a, b, dst)` of `miaImageProcessing.h`, elementwise sum. -/
def add (a b dst : Image) : Image :=
  { dst with data := fun x y z => a.data x y z + b.data x y z }

/-- Modelled from the spec: `div(a, b, dst)` of `miaImageProcessing.h`, elementwise
quotient. -/
def div (a b dst : Image) : Image :=
  { dst with data := fun x y z => a.data x y z / b.data x y z }

/-- The interpolation of `resample`: from the source volume and the geometry of the
destination, the sample written at each destination voxel (the out-of-bounds fill
included). It is a parameter of the model. -/
abbrev Resampler := Image → Grid → Int → Int → Int → ℚ

/-- Modelled from the spec: `resample(src, dst, LINEAR, fill)` of `miaImageProcessing.h`
reinterpolates `src` onto the grid of `dst` and overwrites the samples of `dst`. -/
def resample (R : Resampler) (src dst : Image) : Image :=
  { dst with data := R src dst.grid }

/-- The conversion `static_cast<int>(q)`: truncation toward zero, of an exact rational
to an unbounded integer. A value outside the range of the 32-bit `int`, on which the
conversion of the program is undefined, is not set apart. -/
def toInt (q : ℚ) : Int := if 0 ≤ q then ⌊q⌋ else ⌈q⌉

/-! ## The pipeline of `main` -/

/-- Lines 95 and 104: the margin trim
`subimage(v, 0, 0, margin, v.sizeX(), v.sizeY(), v.sizeZ() - 2*margin).clone()`. -/
def trim (margin : Int) (loaded : Image) : Image :=
  (subimage loaded 0 0 margin loaded.sizeX loaded.sizeY (loaded.sizeZ - 2 * margin)).clone

/-- Line 96: `image0.origin()[2]`. -/
def image_min_extent (image : Image) : ℚ := image.originZ

/-- Line 97: `image0.origin()[2] + image0.sizeZ() * image0.spacing()[2]`. -/
def image_max_extent (image : Image) : ℚ := image.originZ + image.sizeZ * image.spacingZ

/-- Lines 106-113: one iteration of the extent update for a later volume;
the pair is `(min_extent, max_extent)`. -/
def extentStep (ext : ℚ × ℚ) (image : Image) : ℚ × ℚ :=
  let min_extent := if image.originZ < ext.1 then image.originZ else ext.1
  let max_extent :=
    if image.originZ + image.sizeZ * image.spacingZ > ext.2
    then image.originZ + image.sizeZ * image.spacingZ else ext.2
  (min_extent, max_extent)

/-- Lines 96-114: `(min_extent, max_extent)` after the loading loop. -/
def extents (image0 : Image) (images : List Image) : ℚ × ℚ :=
  images.foldl extentStep (image_min_extent image0, image_max_extent image0)

/-- Line 98 onwards: the final `min_extent`. -/
def min_extent (image0 : Image) (images : List Image) : ℚ := (extents image0 images).1

/-- Line 99 onwards: the final `max_extent`. -/
def max_extent (image0 : Image) (images : List Image) : ℚ := (extents image0 images).2

/-- Line 117: `static_cast<int>((image0_min_extent - min_extent) / spacing + 1)`, with the
difference, the quotient and the sum taken exactly (no floating-point rounding). -/
def pad_min_z (image0 : Image) (images : List Image) : Int :=
  toInt ((image_min_extent image0 - min_extent image0 images) / image0.spacingZ + 1)

/-- Line 118: `static_cast<int>((max_extent - image0_max_extent) / spacing + 1)`, with the
difference, the quotient and the sum taken exactly (no floating-point rounding). -/
def pad_max_z (image0 : Image) (images : List Image) : Int :=
  toInt ((max_extent image0 images - image_max_extent image0) / image0.spacingZ + 1)

/-- Line 119: the first volume padded with sentinel slices. -/
def paddedTarget (image0 : Image) (images : List Image) : Image :=
  pad image0 0 0 0 0 (pad_min_z image0 images) (pad_max_z image0 images) unique_value

/-- The four volumes mutated by the accumulation loop. -/
structure Accum where
  target : Image
  counts : Image
  binary : Image
  empty : Image

/-- Lines 119-129: padding, coverage seeding from the first volume, and creation of the
scratch masks. -/
def seed (image0 : Image) (images : List Image) : Accum :=
  let target := paddedTarget image0 images
  let counts := target.clone
  let counts := threshold target counts unique_value unique_value
  let counts := invert_binary counts counts
  let target := mul target counts target
  let binary := target.clone
  let empty := target.clone
  { target := target, counts := counts, binary := binary, empty := empty }

/-- Lines 132-143: the body of the accumulation loop for one later volume. -/
def accumStep (R : Resampler) (average_overlap : Bool) (s : Accum) (image : Image) : Accum :=
  let empty := threshold s.counts s.empty 0 0
  let trg := s.target.clone
  let trg := resample R image trg
  let binary := threshold trg s.binary unique_value unique_value
  let binary := invert_binary binary binary
  let binary := if !average_overlap then mul empty binary binary else binary
  let trg := mul trg binary trg
  let target := add trg s.target s.target
  let counts := add binary s.counts s.counts
  { target := target, counts := counts, binary := binary, empty := empty }

/-- Lines 130-144: the accumulation loop over the later volumes, in load order. -/
def accumulate (R : Resampler) (average_overlap : Bool) (image0 : Image)
    (images : List Image) : Accum :=
  images.foldl (accumStep R average_overlap) (seed image0 images)

/-- Lines 149-153: the loop
`while (counts(cx, cy, off_z_min) == 0 && off_z_min < sizeZ - 1) off_z_min++`
started at `off_z_min`; `none` when the iteration budget `fuel` runs out. -/
def scanMin (counts : Image) (central_x central_y : Int) : Nat → Int → Option Int
  | 0, _ => none
  | fuel + 1, off_z_min =>
    if counts.data central_x central_y off_z_min = 0 ∧ off_z_min < counts.sizeZ - 1
    then scanMin counts central_x central_y fuel (off_z_min + 1)
    else some off_z_min

/-- Lines 154-158: the loop
`while (counts(cx, cy, off_z_max - 1) == 0 && off_z_max > 0) off_z_max--`
started at `off_z_max`; `none` when the iteration budget `fuel` runs out. -/
def scanMax (counts : Image) (central_x central_y : Int) : Nat → Int → Option Int
  | 0, _ => none
  | fuel + 1, off_z_max =>
    if counts.data central_x central_y (off_z_max - 1) = 0 ∧ off_z_max > 0
    then scanMax counts central_x central_y fuel (off_z_max - 1)
    else some off_z_max

/-- Line 147: `counts.sizeX() / 2` (C++ integer division). -/
def central_x (counts : Image) : Int := Int.tdiv counts.sizeX 2

/-- Line 148: `counts.sizeY() / 2` (C++ integer division). -/
def central_y (counts : Image) : Int := Int.tdiv counts.sizeY 2

/-- An iteration budget that both scan loops never exhaust. -/
def scanFuel (counts : Image) : Nat := counts.sizeZ.toNat + 1

/-- Lines 149-153 from `off_z_min = 0`. -/
def off_z_min (counts : Image) : Option Int :=
  scanMin counts (central_x counts) (central_y counts) (scanFuel counts) 0

/-- Lines 154-158 from `off_z_max = counts.sizeZ()`. -/
def off_z_max (counts : Image) : Option Int :=
  scanMax counts (central_x counts) (central_y counts) (scanFuel counts) counts.sizeZ

/-- Lines 149-153 with the voxel reads recorded: the result of the loop together with
the slice indices `z` of its reads `counts(cx, cy, z)`, in order. Every evaluation of the
loop condition reads `counts(cx, cy, off_z_min)` first and tests the bound second. -/
def scanMinReads (counts : Image) (central_x central_y : Int) :
    Nat → Int → Option (Int × List Int)
  | 0, _ => none
  | fuel + 1, off_z_min =>
    if counts.data central_x central_y off_z_min = 0 ∧ off_z_min < counts.sizeZ - 1
    then (scanMinReads counts central_x central_y fuel (off_z_min + 1)).map
      (fun r => (r.1, off_z_min :: r.2))
    else some (off_z_min, [off_z_min])

/-- Lines 154-158 with the voxel reads recorded: the result of the loop together with
the slice indices `z` of its reads `counts(cx, cy, z)`, in order. Every evaluation of the
loop condition reads `counts(cx, cy, off_z_max - 1)` first and tests `off_z_max > 0`
second. -/
def scanMaxReads (counts : Image) (central_x central_y : Int) :
    Nat → Int → Option (Int × List Int)
  | 0, _ => none
  | fuel + 1, off_z_max =>
    if counts.data central_x central_y (off_z_max - 1) = 0 ∧ off_z_max > 0
    then (scanMaxReads counts central_x central_y fuel (off_z_max - 1)).map
      (fun r => (r.1, (off_z_max - 1) :: r.2))
    else some (off_z_max, [off_z_max - 1])

/-- Lines 149-153 from `off_z_min = 0`, with the reads. -/
def off_z_min_reads (counts : Image) : Option (Int × List Int) :=
  scanMinReads counts (central_x counts) (central_y counts) (scanFuel counts) 0

/-- Lines 154-158 from `off_z_max = counts.sizeZ()`, with the reads. -/
def off_z_max_reads (counts : Image) : Option (Int × List Int) :=
  scanMaxReads counts (central_x counts) (central_y counts) (scanFuel counts) counts.sizeZ

/-- Lines 160-161: the mask of `counts == 0` added into `counts`. -/
def finalCounts (s : Accum) : Image :=
  let binary := threshold s.counts s.binary 0 0
  add binary s.counts s.counts

/-- Lines 160-162: the finalised `target` (`target / counts`), before the crop. -/
def finalTarget (s : Accum) : Image :=
  div s.target (finalCounts s) s.target

/-- Lines 160-162 after the whole accumulation: the finalised, uncropped volume. -/
def finalized (R : Resampler) (average_overlap : Bool) (image0 : Image)
    (images : List Image) : Image :=
  finalTarget (accumulate R average_overlap image0 images)

/-- Lines 116-166 on the trimmed volumes: the cropped output volume handed to
`itkio::save`. The storage type tag set by `target.dataType(mia::FLOAT)` is not modelled. -/
def stitchTrimmed (R : Resampler) (average_overlap : Bool) (image0 : Image)
    (images : List Image) : Option Image :=
  let s := accumulate R average_overlap image0 images
  match off_z_min s.counts, off_z_max s.counts with
  | some zmin, some zmax =>
    let target := finalTarget s
    some (subimage target 0 0 zmin target.sizeX target.sizeY (zmax - zmin)).clone
  | _, _ => none

/-- What a run of `main` did after option parsing: how many files it loaded, the
volume handed to `itkio::save` (if any), and the exit code. -/
structure Outcome where
  loads : Nat
  saved : Option Image
  exitCode : Int

/-- Lines 85-172 of `main`: `files` holds the loaded volume of every file name, in
order. With fewer than two entries the guarded block is skipped. -/
def stitchMain (R : Resampler) (margin : Int) (average_overlap : Bool)
    (files : List Image) : Option Outcome :=
  match files with
  | loaded :: temp :: rest =>
    let image0 := trim margin loaded
    let images := (temp :: rest).map (trim margin)
    match stitchTrimmed R average_overlap image0 images with
    | some target => some { loads := files.length, saved := some target, exitCode := 0 }
    | none => none
  | _ => some { loads := 0, saved := none, exitCode := 0 }

/-! ## Notions used to state the properties -/

/-- The samples of a list that differ from the sentinel. -/
def covering (vals : List ℚ) : List ℚ :=
  vals.filter (fun v => decide (v ≠ unique_value))

/-- The samples the later volumes `images` give at voxel `(x, y, z)` of the grid `g`,
in load order. -/
def resampledAt (R : Resampler) (g : Grid) (images : List Image) (x y z : Int) : List ℚ :=
  images.map (fun image => R image g x y z)

/-- The samples all inputs give at voxel `(x, y, z)` of the target grid, in load order:
the padded first volume, then each later volume resampled onto the target grid. -/
def contributions (R : Resampler) (image0 : Image) (images : List Image)
    (x y z : Int) : List ℚ :=
  (paddedTarget image0 images).data x y z ::
    resampledAt R (paddedTarget image0 images).grid images x y z

/-- The accumulator after the first `n` iterations of the accumulation loop. -/
def accumulateUpTo (R : Resampler) (average_overlap : Bool) (image0 : Image)
    (images : List Image) (n : Nat) : Accum :=
  (images.take n).foldl (accumStep R average_overlap) (seed image0 images)

/-- A resampler for the concrete instances: the destination voxel takes the source sample
whose slice contains the voxel's coordinate along the stitching axis (same in-plane
index), and the sentinel outside the source bounds. On grids of equal spacing whose
origins differ by whole slices this is what linear interpolation gives. -/
def sliceResampler : Resampler := fun src g x y z =>
  let k : Int := ⌊(g.originZ + z * g.spacingZ - src.originZ) / src.spacingZ⌋
  if 0 ≤ x ∧ x < src.sizeX ∧ 0 ≤ y ∧ y < src.sizeY ∧ 0 ≤ k ∧ k < src.sizeZ
  then src.data x y k else unique_value

/-- A `1 x 1 x 2` volume over `[0, 2)` with samples `10, 20`. -/
def volumeA : Image :=
  { sizeX := 1, sizeY := 1, sizeZ := 2, originZ := 0, spacingZ := 1,
    data := fun _ _ z => if z = 0 then 10 else 20 }

/-- A `1 x 1 x 2` volume over `[1, 3)` with samples `30, 40`. -/
def volumeB : Image :=
  { sizeX := 1, sizeY := 1, sizeZ := 2, originZ := 1, spacingZ := 1,
    data := fun _ _ z => if z = 0 then 30 else 40 }

/-- A `1 x 1 x 1` volume over `[-3/2, -7/5)` (spacing `1/10`) with sample `5`. -/
def volumeT : Image :=
  { sizeX := 1, sizeY := 1, sizeZ := 1, originZ := -3 / 2, spacingZ := 1 / 10,
    data := fun _ _ _ => 5 }

/-- A `1 x 1 x 2` volume over `[0, 2)` whose first sample is a genuine measurement equal
to the sentinel and whose second sample is `20`. -/
def volumeS : Image :=
  { sizeX := 1, sizeY := 1, sizeZ := 2, originZ := 0, spacingZ := 1,
    data := fun _ _ z => if z = 0 then unique_value else 20 }

/-- A `1 x 1 x 1` volume of counts holding `0`. -/
def countsZ : Image :=
  { sizeX := 1, sizeY := 1, sizeZ := 1, originZ := 0, spacingZ := 1,
    data := fun _ _ _ => 0 }

/-- A `1 x 1 x 4` volume of counts `0, 1, 2, 0` along the stitching axis. -/
def countsC : Image :=
  { sizeX := 1, sizeY := 1, sizeZ := 4, originZ := 0, spacingZ := 1,
    data := fun _ _ z => if z = 1 then 1 else if z = 2 then 2 else 0 }

/-! ## Lemmas on the accumulation loop -/

theorem accumStep_grid (R : Resampler) (b : Bool) (s : Accum) (image : Image) :
    (accumStep R b s image).target.grid = s.target.grid := by
  cases b <;> rfl

theorem seed_grid (image0 : Image) (images : List Image) :
    (seed image0 images).target.grid = (paddedTarget image0 images).grid := rfl

theorem seed_counts (image0 : Image) (images : List Image) (x y z : Int) :
    (seed image0 images).counts.data x y z =
      if (paddedTarget image0 images).data x y z = unique_value then 0 else 1 := by
  simp only [seed, invert_binary, threshold, Image.clone]
  by_cases h : (paddedTarget image0 images).data x y z = unique_value
  · simp [h]
  · have : ¬ (unique_value ≤ (paddedTarget image0 images).data x y z ∧
        (paddedTarget image0 images).data x y z ≤ unique_value) :=
      fun hh => h (le_antisymm hh.2 hh.1)
    simp [h, this]

theorem seed_target (image0 : Image) (images : List Image) (x y z : Int) :
    (seed image0 images).target.data x y z =
      if (paddedTarget image0 images).data x y z = unique_value then 0
      else (paddedTarget image0 images).data x y z := by
  have hc := seed_counts image0 images x y z
  have ht : (seed image0 images).target.data x y z =
      (paddedTarget image0 images).data x y z * (seed image0 images).counts.data x y z := rfl
  rw [ht, hc]
  split <;> simp

theorem accumStep_avg_target (R : Resampler) (s : Accum) (image : Image) (x y z : Int) :
    (accumStep R true s image).target.data x y z =
      s.target.data x y z + (covering [R image s.target.grid x y z]).sum := by
  simp only [accumStep, add, mul, invert_binary, threshold, resample, Image.clone, covering]
  by_cases h : R image s.target.grid x y z = unique_value
  · simp [h]
  · have : ¬ (unique_value ≤ R image s.target.grid x y z ∧
        R image s.target.grid x y z ≤ unique_value) :=
      fun hh => h (le_antisymm hh.2 hh.1)
    simp [h, this, add_comm]

theorem accumStep_avg_counts (R : Resampler) (s : Accum) (image : Image) (x y z : Int) :
    (accumStep R true s image).counts.data x y z =
      s.counts.data x y z + ((covering [R image s.target.grid x y z]).length : ℚ) := by
  simp only [accumStep, add, mul, invert_binary, threshold, resample, Image.clone, covering]
  by_cases h : R image s.target.grid x y z = unique_value
  · simp [h]
  · have : ¬ (unique_value ≤ R image s.target.grid x y z ∧
        R image s.target.grid x y z ≤ unique_value) :=
      fun hh => h (le_antisymm hh.2 hh.1)
    simp [h, this, add_comm]

theorem covering_cons (v : ℚ) (vs : List ℚ) :
    covering (v :: vs) = covering [v] ++ covering vs := by
  unfold covering
  by_cases h : v = unique_value <;> simp [List.filter_cons, h]

theorem foldl_grid (R : Resampler) (b : Bool) (images : List Image) :
    ∀ s : Accum, (images.foldl (accumStep R b) s).target.grid = s.target.grid := by
  induction images with
  | nil => intro s; rfl
  | cons image rest ih =>
    intro s
    rw [List.foldl_cons, ih, accumStep_grid]

/-- Averaging mode: the loop adds to `target` the sum, and to `counts` the number, of
the resampled samples that differ from the sentinel. -/
theorem foldl_avg (R : Resampler) (images : List Image) (x y z : Int) :
    ∀ s : Accum,
      (images.foldl (accumStep R true) s).target.data x y z =
          s.target.data x y z + (covering (resampledAt R s.target.grid images x y z)).sum ∧
      (images.foldl (accumStep R true) s).counts.data x y z =
          s.counts.data x y z +
            ((covering (resampledAt R s.target.grid images x y z)).length : ℚ) := by
  induction images with
  | nil => intro s; simp [resampledAt, covering]
  | cons image rest ih =>
    intro s
    obtain ⟨h1, h2⟩ := ih (accumStep R true s image)
    rw [List.foldl_cons, h1, h2, accumStep_grid, accumStep_avg_target, accumStep_avg_counts]
    have hc : covering (resampledAt R s.target.grid (image :: rest) x y z) =
        covering [R image s.target.grid x y z] ++
          covering (resampledAt R s.target.grid rest x y z) := by
      rw [resampledAt, List.map_cons, covering_cons]; rfl
    rw [hc, List.sum_append, List.length_append]
    push_cast
    constructor <;> ring

theorem accumStep_first_covered (R : Resampler) (s : Accum) (image : Image) (x y z : Int)
    (h : s.counts.data x y z ≠ 0) :
    (accumStep R false s image).target.data x y z = s.target.data x y z ∧
      (accumStep R false s image).counts.data x y z = s.counts.data x y z := by
  have hne : ¬ (0 ≤ s.counts.data x y z ∧ s.counts.data x y z ≤ 0) :=
    fun hh => h (le_antisymm hh.2 hh.1)
  simp [accumStep, add, mul, invert_binary, threshold, resample, Image.clone, hne]

theorem accumStep_first_empty (R : Resampler) (s : Accum) (image : Image) (x y z : Int)
    (h : s.counts.data x y z = 0) :
    (accumStep R false s image).target.data x y z =
        s.target.data x y z + (covering [R image s.target.grid x y z]).sum ∧
      (accumStep R false s image).counts.data x y z =
        ((covering [R image s.target.grid x y z]).length : ℚ) := by
  simp only [accumStep, add, mul, invert_binary, threshold, resample, Image.clone, covering]
  by_cases hv : R image s.target.grid x y z = unique_value
  · simp [hv, h]
  · have : ¬ (unique_value ≤ R image s.target.grid x y z ∧
        R image s.target.grid x y z ≤ unique_value) :=
      fun hh => hv (le_antisymm hh.2 hh.1)
    simp [hv, this, h, add_comm]

/-- First-contributor mode: a voxel that already has a contributor is left alone by the
rest of the loop. -/
theorem foldl_first_covered (R : Resampler) (images : List Image) (x y z : Int) :
    ∀ s : Accum, s.counts.data x y z ≠ 0 →
      (images.foldl (accumStep R false) s).target.data x y z = s.target.data x y z ∧
      (images.foldl (accumStep R false) s).counts.data x y z = s.counts.data x y z := by
  induction images with
  | nil => intro s _; exact ⟨rfl, rfl⟩
  | cons image rest ih =>
    intro s h
    obtain ⟨h1, h2⟩ := accumStep_first_covered R s image x y z h
    obtain ⟨h3, h4⟩ := ih (accumStep R false s image) (by rw [h2]; exact h)
    rw [List.foldl_cons, h3, h4, h1, h2]
    exact ⟨rfl, rfl⟩

/-- First-contributor mode: a voxel without contributor receives the first resampled
sample that differs from the sentinel, and its count becomes one. -/
theorem foldl_first_empty (R : Resampler) (images : List Image) (x y z : Int) :
    ∀ s : Accum, s.counts.data x y z = 0 →
      (images.foldl (accumStep R false) s).target.data x y z =
          s.target.data x y z +
            ((covering (resampledAt R s.target.grid images x y z)).head?).getD 0 ∧
      (images.foldl (accumStep R false) s).counts.data x y z =
          if covering (resampledAt R s.target.grid images x y z) = [] then 0 else 1 := by
  induction images with
  | nil => intro s h; simp [resampledAt, covering, h]
  | cons image rest ih =>
    intro s h
    obtain ⟨h1, h2⟩ := accumStep_first_empty R s image x y z h
    have hc : covering (resampledAt R s.target.grid (image :: rest) x y z) =
        covering [R image s.target.grid x y z] ++
          covering (resampledAt R s.target.grid rest x y z) := by
      rw [resampledAt, List.map_cons, covering_cons]; rfl
    rw [List.foldl_cons, hc]
    by_cases hv : R image s.target.grid x y z = unique_value
    · have hnil : covering [R image s.target.grid x y z] = [] := by simp [covering, hv]
      rw [hnil] at h1 h2
      simp only [List.sum_nil, add_zero, List.length_nil, Nat.cast_zero] at h1 h2
      obtain ⟨h3, h4⟩ := ih (accumStep R false s image) h2
      rw [h3, h4, accumStep_grid, h1, hnil, List.nil_append]
      exact ⟨rfl, rfl⟩
    · have hone : covering [R image s.target.grid x y z] = [R image s.target.grid x y z] := by
        simp [covering, hv]
      rw [hone] at h1 h2
      simp only [List.sum_cons, List.sum_nil, add_zero, List.length_singleton,
        Nat.cast_one] at h1 h2
      obtain ⟨h3, h4⟩ := foldl_first_covered R rest x y z (accumStep R false s image)
        (by rw [h2]; exact one_ne_zero)
      rw [h3, h4, h1, h2, hone]
      simp

theorem covering_seed (image0 : Image) (images : List Image) (x y z : Int) :
    (seed image0 images).target.data x y z =
        (covering [(paddedTarget image0 images).data x y z]).sum ∧
      (seed image0 images).counts.data x y z =
        ((covering [(paddedTarget image0 images).data x y z]).length : ℚ) := by
  rw [seed_target, seed_counts]
  by_cases h : (paddedTarget image0 images).data x y z = unique_value <;> simp [covering, h]

/-- Averaging mode: after the loop `target` holds the sum and `counts` the number of the
contributions that differ from the sentinel. -/
theorem accumulate_avg (R : Resampler) (image0 : Image) (images : List Image) (x y z : Int) :
    (accumulate R true image0 images).target.data x y z =
        (covering (contributions R image0 images x y z)).sum ∧
      (accumulate R true image0 images).counts.data x y z =
        ((covering (contributions R image0 images x y z)).length : ℚ) := by
  obtain ⟨h1, h2⟩ := foldl_avg R images x y z (seed image0 images)
  obtain ⟨h3, h4⟩ := covering_seed image0 images x y z
  have hc : covering (contributions R image0 images x y z) =
      covering [(paddedTarget image0 images).data x y z] ++
        covering (resampledAt R (paddedTarget image0 images).grid images x y z) :=
    covering_cons _ _
  rw [accumulate, h1, h2, h3, h4, seed_grid, hc, List.sum_append, List.length_append]
  push_cast
  exact ⟨rfl, rfl⟩

/-- First-contributor mode: after any number of iterations `target` holds the first
contribution so far that differs from the sentinel (zero when there is none) and
`counts` is one or zero accordingly. -/
theorem foldl_first_seed (R : Resampler) (image0 : Image) (images rest : List Image)
    (x y z : Int) :
    (rest.foldl (accumStep R false) (seed image0 images)).target.data x y z =
        ((covering ((paddedTarget image0 images).data x y z ::
          resampledAt R (paddedTarget image0 images).grid rest x y z)).head?).getD 0 ∧
      (rest.foldl (accumStep R false) (seed image0 images)).counts.data x y z =
        if covering ((paddedTarget image0 images).data x y z ::
          resampledAt R (paddedTarget image0 images).grid rest x y z) = [] then 0 else 1 := by
  rw [covering_cons]
  by_cases h : (paddedTarget image0 images).data x y z = unique_value
  · have hc : (seed image0 images).counts.data x y z = 0 := by rw [seed_counts]; simp [h]
    have ht : (seed image0 images).target.data x y z = 0 := by rw [seed_target]; simp [h]
    obtain ⟨h1, h2⟩ := foldl_first_empty R rest x y z (seed image0 images) hc
    have hnil : covering [(paddedTarget image0 images).data x y z] = [] := by
      simp [covering, h]
    rw [h1, h2, ht, seed_grid, hnil, List.nil_append, zero_add]
    exact ⟨rfl, rfl⟩
  · have hc : (seed image0 images).counts.data x y z = 1 := by rw [seed_counts]; simp [h]
    have ht : (seed image0 images).target.data x y z =
        (paddedTarget image0 images).data x y z := by rw [seed_target]; simp [h]
    obtain ⟨h1, h2⟩ := foldl_first_covered R rest x y z (seed image0 images)
      (by rw [hc]; exact one_ne_zero)
    have hone : covering [(paddedTarget image0 images).data x y z] =
        [(paddedTarget image0 images).data x y z] := by simp [covering, h]
    rw [h1, h2, ht, hc, hone]
    simp

theorem accumulate_first (R : Resampler) (image0 : Image) (images : List Image)
    (x y z : Int) :
    (accumulate R false image0 images).target.data x y z =
        ((covering (contributions R image0 images x y z)).head?).getD 0 ∧
      (accumulate R false image0 images).counts.data x y z =
        if covering (contributions R image0 images x y z) = [] then 0 else 1 :=
  foldl_first_seed R image0 images images x y z

theorem finalCounts_data (s : Accum) (x y z : Int) :
    (finalCounts s).data x y z =
      if s.counts.data x y z = 0 then 1 else s.counts.data x y z := by
  simp only [finalCounts, add, threshold]
  by_cases h : s.counts.data x y z = 0
  · simp [h]
  · have : ¬ (0 ≤ s.counts.data x y z ∧ s.counts.data x y z ≤ 0) :=
      fun hh => h (le_antisymm hh.2 hh.1)
    simp [h, this]

theorem finalTarget_data (s : Accum) (x y z : Int) :
    (finalTarget s).data x y z = s.target.data x y z / (finalCounts s).data x y z := rfl

/-- In either mode the count of a voxel after the loop is a natural number, zero exactly
when no contribution differs from the sentinel. -/
theorem accumulate_counts_nonneg (R : Resampler) (b : Bool) (image0 : Image)
    (images : List Image) (x y z : Int) :
    0 ≤ (accumulate R b image0 images).counts.data x y z ∧
      ((accumulate R b image0 images).counts.data x y z = 0 ↔
        covering (contributions R image0 images x y z) = []) := by
  cases b with
  | true =>
    rw [(accumulate_avg R image0 images x y z).2]
    refine ⟨Nat.cast_nonneg _, ?_⟩
    rw [Nat.cast_eq_zero, List.length_eq_zero]
  | false =>
    rw [(accumulate_first R image0 images x y z).2]
    by_cases h : covering (contributions R image0 images x y z) = [] <;> simp [h]

theorem covering_append (l₁ l₂ : List ℚ) :
    covering (l₁ ++ l₂) = covering l₁ ++ covering l₂ := by
  simp [covering, List.filter_append]

theorem finalized_avg (R : Resampler) (image0 : Image) (images : List Image) (x y z : Int) :
    (finalized R true image0 images).data x y z =
      (covering (contributions R image0 images x y z)).sum /
        (if covering (contributions R image0 images x y z) = [] then 1
         else ((covering (contributions R image0 images x y z)).length : ℚ)) := by
  rw [finalized, finalTarget_data, finalCounts_data, (accumulate_avg R image0 images x y z).1,
    (accumulate_avg R image0 images x y z).2]
  by_cases h : covering (contributions R image0 images x y z) = [] <;> simp [h]

theorem finalized_first (R : Resampler) (image0 : Image) (images : List Image) (x y z : Int) :
    (finalized R false image0 images).data x y z =
      ((covering (contributions R image0 images x y z)).head?).getD 0 := by
  rw [finalized, finalTarget_data, finalCounts_data, (accumulate_first R image0 images x y z).1,
    (accumulate_first R image0 images x y z).2]
  by_cases h : covering (contributions R image0 images x y z) = [] <;> simp [h]

theorem accumulateUpTo_first (R : Resampler) (image0 : Image) (images : List Image)
    (n : Nat) (x y z : Int) :
    (accumulateUpTo R false image0 images n).target.data x y z =
      ((covering ((contributions R image0 images x y z).take (n + 1))).head?).getD 0 := by
  rw [accumulateUpTo, (foldl_first_seed R image0 images (images.take n) x y z).1,
    contributions, List.take_succ_cons, resampledAt, resampledAt, List.map_take]

theorem finalCounts_ge_one (R : Resampler) (b : Bool) (image0 : Image)
    (images : List Image) (x y z : Int) :
    1 ≤ (finalCounts (accumulate R b image0 images)).data x y z := by
  rw [finalCounts_data]
  split
  · exact le_refl 1
  · next h =>
    cases b with
    | true =>
      rw [(accumulate_avg R image0 images x y z).2] at h ⊢
      have hpos : (covering (contributions R image0 images x y z)).length ≠ 0 := by
        intro h0; exact h (by rw [h0]; rfl)
      exact_mod_cast Nat.one_le_iff_ne_zero.mpr hpos
    | false =>
      rw [(accumulate_first R image0 images x y z).2] at h ⊢
      split
      · next h0 => rw [if_pos h0] at h; exact absurd rfl h
      · exact le_refl 1

/-! ## The concrete instance `volumeA`, `volumeB` -/

theorem extents_AB : extents volumeA [volumeB] = (0, 3) := by
  norm_num [extents, extentStep, image_min_extent, image_max_extent, volumeA, volumeB]

theorem pad_min_z_AB : pad_min_z volumeA [volumeB] = 1 := by
  simp only [pad_min_z, min_extent, extents_AB]
  norm_num [image_min_extent, toInt, volumeA]

theorem pad_max_z_AB : pad_max_z volumeA [volumeB] = 2 := by
  simp only [pad_max_z, max_extent, extents_AB]
  norm_num [image_max_extent, toInt, volumeA]

theorem contributions_AB_2 :
    contributions sliceResampler volumeA [volumeB] 0 0 2 = [20, 30] := by
  simp only [contributions, resampledAt, paddedTarget, pad_min_z_AB, pad_max_z_AB]
  norm_num [pad, sliceResampler, Image.grid, volumeA, volumeB]

theorem contributions_AB_1 :
    contributions sliceResampler volumeA [volumeB] 0 0 1 = [10, unique_value] := by
  simp only [contributions, resampledAt, paddedTarget, pad_min_z_AB, pad_max_z_AB]
  norm_num [pad, sliceResampler, Image.grid, volumeA, volumeB]

theorem contributions_AB_0 :
    contributions sliceResampler volumeA [volumeB] 0 0 0 = [unique_value, unique_value] := by
  simp only [contributions, resampledAt, paddedTarget, pad_min_z_AB, pad_max_z_AB]
  norm_num [pad, sliceResampler, Image.grid, volumeA, volumeB]

/-! ## Lemmas on the extent loop -/

theorem extents_fold_bounds (images : List Image) :
    ∀ ext : ℚ × ℚ,
      ((images.foldl extentStep ext).1 ≤ ext.1 ∧
        ∀ v ∈ images, (images.foldl extentStep ext).1 ≤ v.originZ) ∧
      (ext.2 ≤ (images.foldl extentStep ext).2 ∧
        ∀ v ∈ images, image_max_extent v ≤ (images.foldl extentStep ext).2) := by
  induction images with
  | nil => intro ext; simp
  | cons image rest ih =>
    intro ext
    obtain ⟨⟨h1, h2⟩, h3, h4⟩ := ih (extentStep ext image)
    have hmin : (extentStep ext image).1 ≤ ext.1 ∧ (extentStep ext image).1 ≤ image.originZ := by
      simp only [extentStep]
      split <;> constructor <;> linarith
    have hmax : ext.2 ≤ (extentStep ext image).2 ∧
        image_max_extent image ≤ (extentStep ext image).2 := by
      simp only [extentStep, image_max_extent]
      split <;> constructor <;> linarith
    rw [List.foldl_cons]
    refine ⟨⟨le_trans h1 hmin.1, ?_⟩, le_trans hmax.1 h3, ?_⟩
    · intro v hv
      rcases List.mem_cons.mp hv with rfl | hv
      · exact le_trans h1 hmin.2
      · exact h2 v hv
    · intro v hv
      rcases List.mem_cons.mp hv with rfl | hv
      · exact le_trans hmax.2 h3
      · exact h4 v hv

theorem extents_fold_attained (images : List Image) :
    ∀ ext : ℚ × ℚ,
      ((images.foldl extentStep ext).1 = ext.1 ∨
        ∃ v ∈ images, (images.foldl extentStep ext).1 = v.originZ) ∧
      ((images.foldl extentStep ext).2 = ext.2 ∨
        ∃ v ∈ images, (images.foldl extentStep ext).2 = image_max_extent v) := by
  induction images with
  | nil => intro ext; simp
  | cons image rest ih =>
    intro ext
    obtain ⟨h1, h2⟩ := ih (extentStep ext image)
    rw [List.foldl_cons]
    constructor
    · rcases h1 with h1 | ⟨v, hv, h1⟩
      · rw [h1]
        simp only [extentStep]
        split
        · exact Or.inr ⟨image, List.mem_cons_self _ _, rfl⟩
        · exact Or.inl rfl
      · exact Or.inr ⟨v, List.mem_cons_of_mem _ hv, h1⟩
    · rcases h2 with h2 | ⟨v, hv, h2⟩
      · rw [h2]
        simp only [extentStep]
        split
        · exact Or.inr ⟨image, List.mem_cons_self _ _, rfl⟩
        · exact Or.inl rfl
      · exact Or.inr ⟨v, List.mem_cons_of_mem _ hv, h2⟩

/-! ## Geometry of the accumulators, padding bounds, totality of the scans -/

theorem accumStep_counts_grid (R : Resampler) (b : Bool) (s : Accum) (image : Image) :
    (accumStep R b s image).counts.grid = s.counts.grid := by
  cases b <;> rfl

theorem foldl_counts_grid (R : Resampler) (b : Bool) (images : List Image) :
    ∀ s : Accum, (images.foldl (accumStep R b) s).counts.grid = s.counts.grid := by
  induction images with
  | nil => intro s; rfl
  | cons image rest ih =>
    intro s
    rw [List.foldl_cons, ih, accumStep_counts_grid]

theorem accumulate_counts_grid (R : Resampler) (b : Bool) (image0 : Image)
    (images : List Image) :
    (accumulate R b image0 images).counts.grid = (paddedTarget image0 images).grid := by
  rw [accumulate, foldl_counts_grid]; rfl

theorem accumulate_target_grid (R : Resampler) (b : Bool) (image0 : Image)
    (images : List Image) :
    (accumulate R b image0 images).target.grid = (paddedTarget image0 images).grid := by
  rw [accumulate, foldl_grid]; rfl

theorem grid_fields {a b : Image} (h : a.grid = b.grid) :
    a.sizeX = b.sizeX ∧ a.sizeY = b.sizeY ∧ a.sizeZ = b.sizeZ ∧
      a.originZ = b.originZ ∧ a.spacingZ = b.spacingZ := by
  simp only [Image.grid, Grid.mk.injEq] at h
  exact h

theorem scanMin_total (counts : Image) (cx cy : Int) :
    ∀ (fuel : Nat) (off : Int), (counts.sizeZ - 1 - off).toNat < fuel →
      ∃ r : Int, scanMin counts cx cy fuel off = some r := by
  intro fuel
  induction fuel with
  | zero => intro off hf; exact absurd hf (Nat.not_lt_zero _)
  | succ fuel ih =>
    intro off hf
    rw [scanMin]
    by_cases hc : counts.data cx cy off = 0 ∧ off < counts.sizeZ - 1
    · rw [if_pos hc]
      exact ih (off + 1) (by omega)
    · rw [if_neg hc]
      exact ⟨off, rfl⟩

theorem scanMax_total (counts : Image) (cx cy : Int) :
    ∀ (fuel : Nat) (off : Int), off.toNat < fuel →
      ∃ r : Int, scanMax counts cx cy fuel off = some r := by
  intro fuel
  induction fuel with
  | zero => intro off hf; exact absurd hf (Nat.not_lt_zero _)
  | succ fuel ih =>
    intro off hf
    rw [scanMax]
    by_cases hc : counts.data cx cy (off - 1) = 0 ∧ off > 0
    · rw [if_pos hc]
      exact ih (off - 1) (by omega)
    · rw [if_neg hc]
      exact ⟨off, rfl⟩

/-- The forward scan started at `off` stops at the first non-zero entry `z0` of the
central column, given enough iterations. -/
theorem scanMin_finds (counts : Image) (cx cy z0 : Int)
    (hz0 : counts.data cx cy z0 ≠ 0) (hlt : z0 < counts.sizeZ) :
    ∀ (fuel : Nat) (off : Int), off ≤ z0 → (z0 - off).toNat < fuel →
      (∀ z : Int, off ≤ z → z < z0 → counts.data cx cy z = 0) →
      scanMin counts cx cy fuel off = some z0 := by
  intro fuel
  induction fuel with
  | zero => intro off _ hf _; exact absurd hf (Nat.not_lt_zero _)
  | succ fuel ih =>
    intro off hle hf hzero
    rw [scanMin]
    by_cases hc : counts.data cx cy off = 0 ∧ off < counts.sizeZ - 1
    · rw [if_pos hc]
      have hne : off ≠ z0 := fun h => hz0 (h ▸ hc.1)
      have hlt2 : off < z0 := lt_of_le_of_ne hle hne
      exact ih (off + 1) (by omega) (by omega)
        (fun z h1 h2 => hzero z (by omega) h2)
    · rw [if_neg hc]
      have heq : off = z0 := by
        by_contra hne
        have hlt2 : off < z0 := lt_of_le_of_ne hle hne
        exact hc ⟨hzero off (le_refl off) hlt2, by omega⟩
      rw [heq]

/-- The backward scan started at `off` stops one past the last non-zero entry `z1` of the
central column, given enough iterations. -/
theorem scanMax_finds (counts : Image) (cx cy z1 : Int)
    (hz1 : counts.data cx cy z1 ≠ 0) (hge : 0 ≤ z1) :
    ∀ (fuel : Nat) (off : Int), z1 < off → (off - z1).toNat ≤ fuel →
      (∀ z : Int, z1 < z → z < off → counts.data cx cy z = 0) →
      scanMax counts cx cy fuel off = some (z1 + 1) := by
  intro fuel
  induction fuel with
  | zero => intro off hlt hf _; omega
  | succ fuel ih =>
    intro off hlt hf hzero
    rw [scanMax]
    by_cases hc : counts.data cx cy (off - 1) = 0 ∧ off > 0
    · rw [if_pos hc]
      have hne : off - 1 ≠ z1 := fun h => hz1 (h ▸ hc.1)
      exact ih (off - 1) (by omega) (by omega)
        (fun z h1 h2 => hzero z h1 (by omega))
    · rw [if_neg hc]
      have heq : off = z1 + 1 := by
        by_contra hne
        exact hc ⟨hzero (off - 1) (by omega) (by omega), by omega⟩
      rw [heq]

/-- A non-zero entry of the central column inside the volume has a first and a last
one. -/
theorem central_column_first_last (c : Int → ℚ) (n : Int)
    (hex : ∃ z : Int, 0 ≤ z ∧ z < n ∧ c z ≠ 0) :
    ∃ z0 z1 : Int, 0 ≤ z0 ∧ z0 ≤ z1 ∧ z1 < n ∧ c z0 ≠ 0 ∧ c z1 ≠ 0 ∧
      (∀ z : Int, 0 ≤ z → z < z0 → c z = 0) ∧
      (∀ z : Int, z1 < z → z < n → c z = 0) := by
  obtain ⟨w, hw0, hwn, hw⟩ := hex
  have hfirst : ∀ k : Nat, ∀ w : Int, 0 ≤ w → w.toNat ≤ k → c w ≠ 0 →
      ∃ z0 : Int, 0 ≤ z0 ∧ z0 ≤ w ∧ c z0 ≠ 0 ∧ ∀ z : Int, 0 ≤ z → z < z0 → c z = 0 := by
    intro k
    induction k with
    | zero =>
      intro w h0 hk hc
      have hw : w = 0 := by omega
      exact ⟨w, h0, le_refl w, hc, fun z hz hlt => by omega⟩
    | succ k ih =>
      intro w h0 hk hc
      by_cases hall : ∀ z : Int, 0 ≤ z → z < w → c z = 0
      · exact ⟨w, h0, le_refl w, hc, hall⟩
      · push_neg at hall
        obtain ⟨z, hz0, hzw, hcz⟩ := hall
        obtain ⟨z0, h1, h2, h3, h4⟩ := ih z hz0 (by omega) hcz
        exact ⟨z0, h1, by omega, h3, h4⟩
  have hlast : ∀ k : Nat, ∀ w : Int, w < n → (n - w).toNat ≤ k + 1 → c w ≠ 0 →
      ∃ z1 : Int, w ≤ z1 ∧ z1 < n ∧ c z1 ≠ 0 ∧ ∀ z : Int, z1 < z → z < n → c z = 0 := by
    intro k
    induction k with
    | zero =>
      intro w hwn hk hc
      exact ⟨w, le_refl w, hwn, hc, fun z hz hlt => by omega⟩
    | succ k ih =>
      intro w hwn hk hc
      by_cases hall : ∀ z : Int, w < z → z < n → c z = 0
      · exact ⟨w, le_refl w, hwn, hc, hall⟩
      · push_neg at hall
        obtain ⟨z, hzw, hzn, hcz⟩ := hall
        obtain ⟨z1, h1, h2, h3, h4⟩ := ih z hzn (by omega) hcz
        exact ⟨z1, by omega, h2, h3, h4⟩
  obtain ⟨z0, a1, a2, a3, a4⟩ := hfirst w.toNat w hw0 (le_refl _) hw
  obtain ⟨z1, b1, b2, b3, b4⟩ := hlast (n - w).toNat w hwn (Nat.le_succ _) hw
  exact ⟨z0, z1, a1, by omega, b2, a3, b3, a4, b4⟩

/-- Both scan loops end within the iteration budget used by the pipeline. -/
theorem off_z_total (counts : Image) :
    (∃ zmin : Int, off_z_min counts = some zmin) ∧
      ∃ zmax : Int, off_z_max counts = some zmax :=
  ⟨scanMin_total counts _ _ (scanFuel counts) 0 (by unfold scanFuel; omega),
    scanMax_total counts _ _ (scanFuel counts) counts.sizeZ (by unfold scanFuel; omega)⟩

theorem extent_attained_all (image0 : Image) (images : List Image) :
    (∃ v ∈ image0 :: images, min_extent image0 images = v.originZ) ∧
      ∃ v ∈ image0 :: images,
        max_extent image0 images = v.originZ + v.sizeZ * v.spacingZ := by
  obtain ⟨a1, a2⟩ :=
    extents_fold_attained images (image_min_extent image0, image_max_extent image0)
  constructor
  · rcases a1 with a1 | ⟨v, hv, a1⟩
    · exact ⟨image0, List.mem_cons_self _ _, a1⟩
    · exact ⟨v, List.mem_cons_of_mem _ hv, a1⟩
  · rcases a2 with a2 | ⟨v, hv, a2⟩
    · exact ⟨image0, List.mem_cons_self _ _, a2⟩
    · exact ⟨v, List.mem_cons_of_mem _ hv, a2⟩

theorem scanMin_congr (c₁ c₂ : Image) (cx cy : Int) (hsz : c₁.sizeZ = c₂.sizeZ)
    (h : ∀ z : Int, c₁.data cx cy z = 0 ↔ c₂.data cx cy z = 0) :
    ∀ (fuel : Nat) (off : Int), scanMin c₁ cx cy fuel off = scanMin c₂ cx cy fuel off := by
  intro fuel
  induction fuel with
  | zero => intro off; rfl
  | succ fuel ih =>
    intro off
    simp only [scanMin, h off, hsz, ih]

theorem scanMax_congr (c₁ c₂ : Image) (cx cy : Int)
    (h : ∀ z : Int, c₁.data cx cy z = 0 ↔ c₂.data cx cy z = 0) :
    ∀ (fuel : Nat) (off : Int), scanMax c₁ cx cy fuel off = scanMax c₂ cx cy fuel off := by
  intro fuel
  induction fuel with
  | zero => intro off; rfl
  | succ fuel ih =>
    intro off
    simp only [scanMax, h (off - 1), ih]

/-- The crop range depends only on the geometry of `counts` and on which of its voxels
are zero. -/
theorem off_z_congr (c₁ c₂ : Image) (hg : c₁.grid = c₂.grid)
    (h : ∀ x y z : Int, c₁.data x y z = 0 ↔ c₂.data x y z = 0) :
    off_z_min c₁ = off_z_min c₂ ∧ off_z_max c₁ = off_z_max c₂ := by
  obtain ⟨gx, gy, gz, _, _⟩ := grid_fields hg
  have hcx : central_x c₁ = central_x c₂ := by unfold central_x; rw [gx]
  have hcy : central_y c₁ = central_y c₂ := by unfold central_y; rw [gy]
  have hf : scanFuel c₁ = scanFuel c₂ := by unfold scanFuel; rw [gz]
  constructor
  · rw [off_z_min, off_z_min, hcx, hcy, hf]
    exact scanMin_congr c₁ c₂ _ _ gz (fun z => h _ _ z) _ _
  · rw [off_z_max, off_z_max, hcx, hcy, hf, gz]
    exact scanMax_congr c₁ c₂ _ _ (fun z => h _ _ z) _ _

/-- After the loop a voxel has count zero in averaging mode exactly when it has count
zero in first-contributor mode. -/
theorem counts_zero_iff_modes (R : Resampler) (image0 : Image) (images : List Image)
    (x y z : Int) :
    (accumulate R true image0 images).counts.data x y z = 0 ↔
      (accumulate R false image0 images).counts.data x y z = 0 := by
  rw [(accumulate_counts_nonneg R true image0 images x y z).2,
    (accumulate_counts_nonneg R false image0 images x y z).2]

/-- C1: in averaging mode, at every voxel of the target grid where `k ≥ 1` of the inputs
(the padded first volume, the later volumes resampled onto the target grid) give a sample
that differs from the sentinel, the finalised value `target / counts` is the sum of those
samples divided by `k`. -/
theorem averaging_voxel_is_mean (R : Resampler) (image0 : Image) (images : List Image)
    (x y z : Int) (hk : 1 ≤ (covering (contributions R image0 images x y z)).length) :
    (finalized R true image0 images).data x y z =
      (covering (contributions R image0 images x y z)).sum /
        ((covering (contributions R image0 images x y z)).length : ℚ) := by
  have hne : covering (contributions R image0 images x y z) ≠ [] := by
    intro h; rw [h] at hk; simp at hk
  rw [finalized_avg, if_neg hne]

theorem averaging_voxel_is_mean_witness :
    1 ≤ (covering (contributions sliceResampler volumeA [volumeB] 0 0 2)).length ∧
      (finalized sliceResampler true volumeA [volumeB]).data 0 0 2 = 25 := by
  have hk : 1 ≤ (covering (contributions sliceResampler volumeA [volumeB] 0 0 2)).length := by
    rw [contributions_AB_2]; norm_num [covering, unique_value]
  have h := averaging_voxel_is_mean sliceResampler volumeA [volumeB] 0 0 2 hk
  rw [contributions_AB_2] at h
  norm_num [covering, unique_value] at h
  exact ⟨hk, h⟩

/-- C2: in first-contributor mode, at every voxel of the target grid where two or more
inputs give a sample that differs from the sentinel, the finalised value is the sample of
the earliest such input in load order; and from the iteration at which a voxel has a
contributor on, the running `target` already holds the finalised value, so no later
input changes it. -/
theorem first_contributor_wins (R : Resampler) (image0 : Image) (images : List Image)
    (x y z : Int) (hk : 2 ≤ (covering (contributions R image0 images x y z)).length) :
    (covering (contributions R image0 images x y z)).head? =
        some ((finalized R false image0 images).data x y z) ∧
      ∀ n : Nat, covering ((contributions R image0 images x y z).take (n + 1)) ≠ [] →
        (accumulateUpTo R false image0 images n).target.data x y z =
          (finalized R false image0 images).data x y z := by
  rw [finalized_first]
  constructor
  · cases hc : covering (contributions R image0 images x y z) with
    | nil => rw [hc] at hk; simp at hk
    | cons v vs => simp
  · intro n hn
    rw [accumulateUpTo_first]
    have hsplit : covering (contributions R image0 images x y z) =
        covering ((contributions R image0 images x y z).take (n + 1)) ++
          covering ((contributions R image0 images x y z).drop (n + 1)) := by
      rw [← covering_append, List.take_append_drop]
    rw [hsplit]
    cases hc : covering ((contributions R image0 images x y z).take (n + 1)) with
    | nil => exact absurd hc hn
    | cons v vs => simp

theorem first_contributor_wins_witness :
    2 ≤ (covering (contributions sliceResampler volumeA [volumeB] 0 0 2)).length ∧
      (finalized sliceResampler false volumeA [volumeB]).data 0 0 2 = 20 ∧
      (accumulateUpTo sliceResampler false volumeA [volumeB] 0).target.data 0 0 2 = 20 := by
  have hk : 2 ≤ (covering (contributions sliceResampler volumeA [volumeB] 0 0 2)).length := by
    rw [contributions_AB_2]; norm_num [covering, unique_value]
  obtain ⟨h1, h2⟩ := first_contributor_wins sliceResampler volumeA [volumeB] 0 0 2 hk
  have hn := h2 0
  rw [contributions_AB_2] at h1 hn
  have h20 : (finalized sliceResampler false volumeA [volumeB]).data 0 0 2 = 20 := by
    norm_num [covering, unique_value] at h1
    exact h1.symm
  refine ⟨hk, h20, ?_⟩
  rw [hn (by norm_num [covering, unique_value]), h20]

/-- C3: in either mode, at every voxel of the target grid where exactly one input gives
a sample that differs from the sentinel, the finalised value is that sample. -/
theorem single_contributor_exact (R : Resampler) (average_overlap : Bool) (image0 : Image)
    (images : List Image) (x y z : Int) (v : ℚ)
    (h : covering (contributions R image0 images x y z) = [v]) :
    (finalized R average_overlap image0 images).data x y z = v := by
  cases average_overlap with
  | true => rw [finalized_avg, h]; simp
  | false => rw [finalized_first, h]; simp

theorem single_contributor_exact_witness :
    covering (contributions sliceResampler volumeA [volumeB] 0 0 1) = [10] ∧
      (finalized sliceResampler true volumeA [volumeB]).data 0 0 1 = 10 ∧
      (finalized sliceResampler false volumeA [volumeB]).data 0 0 1 = 10 := by
  have h : covering (contributions sliceResampler volumeA [volumeB] 0 0 1) = [10] := by
    rw [contributions_AB_1]; norm_num [covering, unique_value]
  exact ⟨h, single_contributor_exact sliceResampler true volumeA [volumeB] 0 0 1 10 h,
    single_contributor_exact sliceResampler false volumeA [volumeB] 0 0 1 10 h⟩

/-- C4: in either mode, once the mask of `counts == 0` has been added into `counts` every
voxel has a count of at least one, so the division never has a zero divisor; and at every
voxel where no input gives a sample that differs from the sentinel the finalised value
is exactly `0`, which is not the sentinel. -/
theorem uncovered_voxel_is_zero (R : Resampler) (average_overlap : Bool) (image0 : Image)
    (images : List Image) :
    (∀ x y z : Int, 1 ≤ (finalCounts (accumulate R average_overlap image0 images)).data x y z) ∧
      ∀ x y z : Int, covering (contributions R image0 images x y z) = [] →
        (finalized R average_overlap image0 images).data x y z = 0 ∧
          (finalized R average_overlap image0 images).data x y z ≠ unique_value := by
  refine ⟨fun x y z => finalCounts_ge_one R average_overlap image0 images x y z, ?_⟩
  intro x y z h
  have h0 : (finalized R average_overlap image0 images).data x y z = 0 := by
    cases average_overlap with
    | true => rw [finalized_avg, h]; simp
    | false => rw [finalized_first, h]; simp
  refine ⟨h0, ?_⟩
  rw [h0]
  norm_num [unique_value]

theorem uncovered_voxel_is_zero_witness :
    covering (contributions sliceResampler volumeA [volumeB] 0 0 0) = [] ∧
      (finalized sliceResampler true volumeA [volumeB]).data 0 0 0 = 0 ∧
      (finalized sliceResampler false volumeA [volumeB]).data 0 0 0 = 0 := by
  have h : covering (contributions sliceResampler volumeA [volumeB] 0 0 0) = [] := by
    rw [contributions_AB_0]; simp [covering]
  exact ⟨h, ((uncovered_voxel_is_zero sliceResampler true volumeA [volumeB]).2 0 0 0 h).1,
    ((uncovered_voxel_is_zero sliceResampler false volumeA [volumeB]).2 0 0 0 h).1⟩

/-! ## Margin trimming, extents and the guard on the number of inputs -/

/-- C5: for a margin with `0 ≤ margin` and `2 * margin ≤ sizeZ`, the trimmed volume used
for stitching (the first volume and every later one go through the same trim) has exactly
`sizeZ - 2 * margin ≥ 0` slices, its slice `j` is slice `margin + j` of the input, which lies
inside the input, the first surviving slice is input slice `margin` at coordinate
`origin + margin * spacing`, the last one is input slice `sizeZ - margin - 1`, and the
in-plane sizes are those of the input. -/
theorem trim_removes_margin (margin : Int) (loaded : Image)
    (h0 : 0 ≤ margin) (h2 : 2 * margin ≤ loaded.sizeZ) :
    (trim margin loaded).sizeZ = loaded.sizeZ - 2 * margin ∧
      0 ≤ (trim margin loaded).sizeZ ∧
      (trim margin loaded).sizeX = loaded.sizeX ∧
      (trim margin loaded).sizeY = loaded.sizeY ∧
      (trim margin loaded).spacingZ = loaded.spacingZ ∧
      (trim margin loaded).originZ = loaded.originZ + margin * loaded.spacingZ ∧
      (∀ x y j : Int, (trim margin loaded).data x y j = loaded.data x y (margin + j)) ∧
      (∀ j : Int, 0 ≤ j → j < (trim margin loaded).sizeZ →
        0 ≤ margin + j ∧ margin + j < loaded.sizeZ) ∧
      margin + ((trim margin loaded).sizeZ - 1) = loaded.sizeZ - margin - 1 := by
  refine ⟨rfl, ?_, rfl, rfl, rfl, rfl, ?_, ?_, ?_⟩
  · show 0 ≤ loaded.sizeZ - 2 * margin
    omega
  · intro x y j
    show loaded.data (0 + x) (0 + y) (margin + j) = loaded.data x y (margin + j)
    rw [zero_add, zero_add]
  · intro j hj hlt
    have hlt2 : j < loaded.sizeZ - 2 * margin := hlt
    constructor <;> omega
  · show margin + (loaded.sizeZ - 2 * margin - 1) = loaded.sizeZ - margin - 1
    omega

theorem trim_removes_margin_witness :
    (trim 1 (pad volumeA 0 0 0 0 1 1 7)).sizeZ = 2 ∧
      (trim 1 (pad volumeA 0 0 0 0 1 1 7)).data 0 0 0 = 10 ∧
      (trim 1 (pad volumeA 0 0 0 0 1 1 7)).data 0 0 1 = 20 := by
  have h := trim_removes_margin 1 (pad volumeA 0 0 0 0 1 1 7) (by decide)
    (by norm_num [pad, volumeA])
  refine ⟨?_, ?_, ?_⟩
  · rw [h.1]; norm_num [pad, volumeA]
  · rw [h.2.2.2.2.2.2.1]; norm_num [pad, volumeA]
  · rw [h.2.2.2.2.2.2.1]; norm_num [pad, volumeA]

/-- C6: `min_extent` is the minimum of `origin_z` over all volumes, the first included (a
lower bound that one of them attains), and `max_extent` is the maximum of
`origin_z + size_z * spacing_z` over all volumes, each with its own spacing (an upper
bound that one of them attains); this holds for every list of later volumes. -/
theorem extents_are_min_and_max (image0 : Image) (images : List Image) :
    ((∀ v ∈ image0 :: images, min_extent image0 images ≤ v.originZ) ∧
      ∃ v ∈ image0 :: images, min_extent image0 images = v.originZ) ∧
    ((∀ v ∈ image0 :: images,
        v.originZ + v.sizeZ * v.spacingZ ≤ max_extent image0 images) ∧
      ∃ v ∈ image0 :: images,
        max_extent image0 images = v.originZ + v.sizeZ * v.spacingZ) := by
  obtain ⟨⟨b1, b2⟩, b3, b4⟩ :=
    extents_fold_bounds images (image_min_extent image0, image_max_extent image0)
  obtain ⟨a1, a2⟩ :=
    extents_fold_attained images (image_min_extent image0, image_max_extent image0)
  refine ⟨⟨?_, ?_⟩, ?_, ?_⟩
  · intro v hv
    rcases List.mem_cons.mp hv with rfl | hv
    · exact b1
    · exact b2 v hv
  · rcases a1 with a1 | ⟨v, hv, a1⟩
    · exact ⟨image0, List.mem_cons_self _ _, a1⟩
    · exact ⟨v, List.mem_cons_of_mem _ hv, a1⟩
  · intro v hv
    rcases List.mem_cons.mp hv with rfl | hv
    · exact b3
    · exact b4 v hv
  · rcases a2 with a2 | ⟨v, hv, a2⟩
    · exact ⟨image0, List.mem_cons_self _ _, a2⟩
    · exact ⟨v, List.mem_cons_of_mem _ hv, a2⟩

/-- C7: with fewer than two image files the guarded block of `main` is skipped: nothing
is loaded, nothing is saved, and the run ends with exit code `0`. -/
theorem fewer_than_two_files_is_noop (R : Resampler) (margin : Int) (average_overlap : Bool)
    (files : List Image) (h : files.length < 2) :
    stitchMain R margin average_overlap files =
      some { loads := 0, saved := none, exitCode := 0 } := by
  match files, h with
  | [], _ => rfl
  | [_], _ => rfl
  | _ :: _ :: _, h => exact absurd h (by simp)

theorem fewer_than_two_files_is_noop_witness :
    [volumeA].length < 2 ∧
      stitchMain sliceResampler 0 true [volumeA] =
        some { loads := 0, saved := none, exitCode := 0 } :=
  ⟨by decide, fewer_than_two_files_is_noop sliceResampler 0 true [volumeA] (by decide)⟩

/-! ## The central-column trim scan -/

/-- C10: when the central column of `counts` has a non-zero entry, the forward scan
returns the smallest index `zmin` of a non-zero entry and the backward scan returns one
more than the largest such index; so `zmin < zmax`, every slice outside the crop range
`[zmin, zmax)` has a zero count in the central column, and the first and the last kept
slice have a non-zero count there. -/
theorem trim_scan_finds_coverage (counts : Image)
    (hex : ∃ z : Int, 0 ≤ z ∧ z < counts.sizeZ ∧
      counts.data (central_x counts) (central_y counts) z ≠ 0) :
    ∃ zmin zmax : Int, off_z_min counts = some zmin ∧ off_z_max counts = some zmax ∧
      0 ≤ zmin ∧ zmin < zmax ∧ zmax ≤ counts.sizeZ ∧
      counts.data (central_x counts) (central_y counts) zmin ≠ 0 ∧
      counts.data (central_x counts) (central_y counts) (zmax - 1) ≠ 0 ∧
      (∀ z : Int, 0 ≤ z → z < zmin →
        counts.data (central_x counts) (central_y counts) z = 0) ∧
      (∀ z : Int, zmax ≤ z → z < counts.sizeZ →
        counts.data (central_x counts) (central_y counts) z = 0) := by
  obtain ⟨z0, z1, h0, h01, h1n, hc0, hc1, hbefore, hafter⟩ :=
    central_column_first_last (counts.data (central_x counts) (central_y counts))
      counts.sizeZ hex
  refine ⟨z0, z1 + 1, ?_, ?_, h0, by omega, by omega, hc0, ?_, hbefore, ?_⟩
  · exact scanMin_finds counts _ _ z0 hc0 (by omega) (scanFuel counts) 0 h0
      (by unfold scanFuel; omega) hbefore
  · exact scanMax_finds counts _ _ z1 hc1 (by omega) (scanFuel counts) counts.sizeZ h1n
      (by unfold scanFuel; omega) hafter
  · rw [add_sub_cancel_right]; exact hc1
  · intro z hz hlt
    exact hafter z (by omega) hlt

theorem trim_scan_finds_coverage_witness :
    (∃ z : Int, 0 ≤ z ∧ z < countsC.sizeZ ∧
      countsC.data (central_x countsC) (central_y countsC) z ≠ 0) ∧
    off_z_min countsC = some 1 ∧ off_z_max countsC = some 3 := by
  have hex : ∃ z : Int, 0 ≤ z ∧ z < countsC.sizeZ ∧
      countsC.data (central_x countsC) (central_y countsC) z ≠ 0 :=
    ⟨1, by decide, by decide, by norm_num [countsC]⟩
  obtain ⟨zmin, zmax, h1, h2, h3, h4, h5, h6, h7, h8, h9⟩ := trim_scan_finds_coverage countsC hex
  have hsz : countsC.sizeZ = 4 := rfl
  have hdata : ∀ z : Int, countsC.data (central_x countsC) (central_y countsC) z =
      if z = 1 then 1 else if z = 2 then 2 else 0 := fun _ => rfl
  rw [hdata] at h6 h7
  have hmin : zmin = 1 := by
    by_contra hne
    have h1z : (1 : Int) < zmin := by
      rcases lt_trichotomy zmin 1 with hlt | heq | hgt
      · have hz : zmin = 0 := by omega
        rw [hz] at h6; norm_num at h6
      · exact absurd heq hne
      · exact hgt
    have := h8 1 (by decide) h1z
    rw [hdata] at this; norm_num at this
  have hmax : zmax = 3 := by
    by_contra hne
    rcases lt_trichotomy zmax 3 with hlt | heq | hgt
    · have := h9 2 (by omega) (by rw [hsz]; decide)
      rw [hdata] at this; norm_num at this
    · exact absurd heq hne
    · have hz : zmax = 4 := by omega
      rw [hz] at h7; norm_num at h7
  rw [hmin] at h1
  rw [hmax] at h2
  exact ⟨hex, h1, h2⟩

/-! ## Extent of the cropped output -/

theorem accumulateUpTo_first_counts (R : Resampler) (image0 : Image) (images : List Image)
    (n : Nat) (x y z : Int) :
    (accumulateUpTo R false image0 images n).counts.data x y z = 0 ∨
      (accumulateUpTo R false image0 images n).counts.data x y z = 1 := by
  rw [accumulateUpTo, (foldl_first_seed R image0 images (images.take n) x y z).2]
  split
  · exact Or.inl rfl
  · exact Or.inr rfl

theorem accumulateUpTo_zero_count (R : Resampler) (b : Bool) (image0 : Image)
    (images : List Image) (n : Nat) (x y z : Int)
    (hc : (accumulateUpTo R b image0 images n).counts.data x y z = 0) :
    (accumulateUpTo R b image0 images n).target.data x y z = 0 := by
  cases b with
  | true =>
    obtain ⟨h1, h2⟩ := foldl_avg R (images.take n) x y z (seed image0 images)
    obtain ⟨h3, h4⟩ := covering_seed image0 images x y z
    rw [accumulateUpTo, h2, h4] at hc
    rw [accumulateUpTo, h1, h3]
    have hsum : (covering [(paddedTarget image0 images).data x y z]).length +
        (covering (resampledAt R (seed image0 images).target.grid
          (images.take n) x y z)).length = 0 := by
      exact_mod_cast hc
    have hl1 := List.length_eq_zero.mp (Nat.eq_zero_of_add_eq_zero_right hsum)
    have hl2 := List.length_eq_zero.mp (Nat.eq_zero_of_add_eq_zero_left hsum)
    rw [hl1, hl2]
    simp
  | false =>
    obtain ⟨h1, h2⟩ := foldl_first_seed R image0 images (images.take n) x y z
    rw [accumulateUpTo, h2] at hc
    rw [accumulateUpTo, h1]
    by_cases hnil : covering ((paddedTarget image0 images).data x y z ::
        resampledAt R (paddedTarget image0 images).grid (images.take n) x y z) = []
    · rw [hnil]; rfl
    · rw [if_neg hnil] at hc
      exact absurd hc one_ne_zero

theorem accumStep_sentinel (R : Resampler) (b : Bool) (s : Accum) (image : Image)
    (x y z : Int) (h : R image s.target.grid x y z = unique_value) :
    (accumStep R b s image).target.data x y z = s.target.data x y z ∧
      (accumStep R b s image).counts.data x y z = s.counts.data x y z := by
  cases b <;>
    simp [accumStep, add, mul, invert_binary, threshold, resample, Image.clone, h]

theorem accumulateUpTo_succ (R : Resampler) (b : Bool) (image0 : Image)
    (images : List Image) (n : Nat) (h : n < images.length) :
    accumulateUpTo R b image0 images (n + 1) =
      accumStep R b (accumulateUpTo R b image0 images n) images[n] := by
  rw [accumulateUpTo, accumulateUpTo, List.take_succ, List.foldl_append,
    List.getElem?_eq_getElem h]
  rfl

theorem accumulateUpTo_length (R : Resampler) (b : Bool) (image0 : Image)
    (images : List Image) :
    accumulateUpTo R b image0 images images.length = accumulate R b image0 images := by
  rw [accumulateUpTo, List.take_length, accumulate]

theorem padded_AB_2 : (paddedTarget volumeA [volumeB]).data 0 0 2 = 20 := by
  simp only [paddedTarget, pad_min_z_AB, pad_max_z_AB]
  norm_num [pad, volumeA]

/-- C13: in first-contributor mode, after seeding (zero iterations) and after every
iteration of the accumulation loop, `counts` is `0` or `1` at every voxel; one iteration
leaves `counts` and `target` untouched at every voxel whose count was not `0` before it,
so no voxel is counted twice. -/
theorem first_mode_counts_zero_or_one (R : Resampler) (image0 : Image)
    (images : List Image) :
    accumulateUpTo R false image0 images 0 = seed image0 images ∧
      accumulateUpTo R false image0 images images.length =
        accumulate R false image0 images ∧
      (∀ (n : Nat) (h : n < images.length),
        accumulateUpTo R false image0 images (n + 1) =
          accumStep R false (accumulateUpTo R false image0 images n) images[n]) ∧
      (∀ (n : Nat) (x y z : Int),
        (accumulateUpTo R false image0 images n).counts.data x y z = 0 ∨
          (accumulateUpTo R false image0 images n).counts.data x y z = 1) ∧
      ∀ (s : Accum) (image : Image) (x y z : Int), s.counts.data x y z ≠ 0 →
        (accumStep R false s image).counts.data x y z = s.counts.data x y z ∧
          (accumStep R false s image).target.data x y z = s.target.data x y z := by
  refine ⟨rfl, accumulateUpTo_length R false image0 images,
    fun n h => accumulateUpTo_succ R false image0 images n h,
    fun n x y z => accumulateUpTo_first_counts R image0 images n x y z, ?_⟩
  intro s image x y z h
  obtain ⟨h1, h2⟩ := accumStep_first_covered R s image x y z h
  exact ⟨h2, h1⟩

theorem first_mode_counts_zero_or_one_witness :
    (seed volumeA [volumeB]).counts.data 0 0 2 ≠ 0 ∧
      (accumStep sliceResampler false (seed volumeA [volumeB]) volumeB).counts.data 0 0 2 = 1 ∧
      (accumStep sliceResampler false (seed volumeA [volumeB]) volumeB).target.data 0 0 2 =
        20 := by
  have hc : (seed volumeA [volumeB]).counts.data 0 0 2 = 1 := by
    rw [seed_counts, padded_AB_2]; norm_num [unique_value]
  have ht : (seed volumeA [volumeB]).target.data 0 0 2 = 20 := by
    rw [seed_target, padded_AB_2]; norm_num [unique_value]
  have hne : (seed volumeA [volumeB]).counts.data 0 0 2 ≠ 0 := by rw [hc]; exact one_ne_zero
  obtain ⟨h1, h2⟩ := (first_mode_counts_zero_or_one sliceResampler volumeA [volumeB]).2.2.2.2
    (seed volumeA [volumeB]) volumeB 0 0 2 hne
  exact ⟨hne, by rw [h1, hc], by rw [h2, ht]⟩

/-- C14: in both modes, after seeding (zero iterations) and after every iteration of the
accumulation loop, every voxel whose count is `0` has target value `0`, so the sentinel of
the padding never enters the running sum; and after seeding `counts` is `1` exactly where
the padded first volume differs from the sentinel and `0` elsewhere. -/
theorem zero_count_has_zero_target (R : Resampler) (image0 : Image) (images : List Image) :
    (∀ b : Bool, accumulateUpTo R b image0 images 0 = seed image0 images ∧
        accumulateUpTo R b image0 images images.length = accumulate R b image0 images) ∧
      (∀ (b : Bool) (n : Nat) (x y z : Int),
        (accumulateUpTo R b image0 images n).counts.data x y z = 0 →
          (accumulateUpTo R b image0 images n).target.data x y z = 0) ∧
      ∀ x y z : Int, (seed image0 images).counts.data x y z =
        if (paddedTarget image0 images).data x y z = unique_value then 0 else 1 :=
  ⟨fun b => ⟨rfl, accumulateUpTo_length R b image0 images⟩,
    fun b n x y z hc => accumulateUpTo_zero_count R b image0 images n x y z hc,
    fun x y z => seed_counts image0 images x y z⟩

theorem zero_count_has_zero_target_witness :
    (accumulateUpTo sliceResampler true volumeA [volumeB] 1).counts.data 0 0 0 = 0 ∧
      (accumulateUpTo sliceResampler true volumeA [volumeB] 1).target.data 0 0 0 = 0 ∧
      (seed volumeA [volumeB]).counts.data 0 0 0 = 0 := by
  have hc : (accumulateUpTo sliceResampler true volumeA [volumeB] 1).counts.data 0 0 0 = 0 := by
    have hnil : covering (contributions sliceResampler volumeA [volumeB] 0 0 0) = [] := by
      rw [contributions_AB_0]; simp [covering]
    exact (accumulate_counts_nonneg sliceResampler true volumeA [volumeB] 0 0 0).2.mpr hnil
  obtain ⟨_, h2, h3⟩ := zero_count_has_zero_target sliceResampler volumeA [volumeB]
  refine ⟨hc, h2 true 1 0 0 0 hc, ?_⟩
  rw [h3]
  have hp : (paddedTarget volumeA [volumeB]).data 0 0 0 = unique_value := by
    simp only [paddedTarget, pad_min_z_AB, pad_max_z_AB]
    norm_num [pad, volumeA]
  rw [if_pos hp]

theorem extents_SB : extents volumeS [volumeB] = (0, 3) := by
  norm_num [extents, extentStep, image_min_extent, image_max_extent, volumeS, volumeB]

theorem pad_min_z_SB : pad_min_z volumeS [volumeB] = 1 := by
  simp only [pad_min_z, min_extent, extents_SB]
  norm_num [image_min_extent, toInt, volumeS]

theorem pad_max_z_SB : pad_max_z volumeS [volumeB] = 2 := by
  simp only [pad_max_z, max_extent, extents_SB]
  norm_num [image_max_extent, toInt, volumeS]

theorem contributions_SB_1 :
    contributions sliceResampler volumeS [volumeB] 0 0 1 =
      [volumeS.data 0 0 0, unique_value] := by
  simp only [contributions, resampledAt, paddedTarget, pad_min_z_SB, pad_max_z_SB]
  norm_num [pad, sliceResampler, Image.grid, volumeS, volumeB]

/-- C15: a sample equal to the sentinel `unique_value = -123456789` is treated as
padding. Where the padded first volume holds the sentinel, seeding leaves `target` and
`counts` at `0`; where the resampled value of a later volume is the sentinel, the
iteration changes neither `target` nor `counts` (in both modes); and at a voxel where
every input gives the sentinel the finalised value is `0`, not the sample value. -/
theorem sentinel_sample_is_padding (R : Resampler) (image0 : Image) (images : List Image) :
    unique_value = -123456789 ∧
      (∀ x y z : Int, (paddedTarget image0 images).data x y z = unique_value →
        (seed image0 images).target.data x y z = 0 ∧
          (seed image0 images).counts.data x y z = 0) ∧
      (∀ (b : Bool) (s : Accum) (image : Image) (x y z : Int),
        R image s.target.grid x y z = unique_value →
          (accumStep R b s image).target.data x y z = s.target.data x y z ∧
            (accumStep R b s image).counts.data x y z = s.counts.data x y z) ∧
      ∀ (b : Bool) (x y z : Int),
        (∀ c ∈ contributions R image0 images x y z, c = unique_value) →
          (finalized R b image0 images).data x y z = 0 ∧
            (finalized R b image0 images).data x y z ≠ unique_value := by
  refine ⟨rfl, ?_, fun b s image x y z h => accumStep_sentinel R b s image x y z h, ?_⟩
  · intro x y z h
    rw [seed_target, seed_counts, if_pos h, if_pos h]
    exact ⟨rfl, rfl⟩
  · intro b x y z hall
    have hnil : covering (contributions R image0 images x y z) = [] := by
      rw [covering, List.filter_eq_nil_iff]
      intro c hc
      simp [hall c hc]
    have h0 : (finalized R b image0 images).data x y z = 0 := by
      cases b with
      | true => rw [finalized_avg, hnil]; simp
      | false => rw [finalized_first, hnil]; simp
    rw [h0]
    exact ⟨rfl, by norm_num [unique_value]⟩

theorem sentinel_sample_is_padding_witness :
    volumeS.data 0 0 0 = unique_value ∧
      contributions sliceResampler volumeS [volumeB] 0 0 1 =
        [volumeS.data 0 0 0, unique_value] ∧
      (finalized sliceResampler true volumeS [volumeB]).data 0 0 1 = 0 ∧
      (finalized sliceResampler false volumeS [volumeB]).data 0 0 1 = 0 := by
  have hs : volumeS.data 0 0 0 = unique_value := by simp [volumeS]
  have hall : ∀ c ∈ contributions sliceResampler volumeS [volumeB] 0 0 1,
      c = unique_value := by
    rw [contributions_SB_1, hs]
    intro c hc
    simpa using hc
  obtain ⟨_, _, _, h4⟩ := sentinel_sample_is_padding sliceResampler volumeS [volumeB]
  exact ⟨hs, contributions_SB_1, (h4 true 0 0 1 hall).1, (h4 false 0 0 1 hall).1⟩

/-! ## Reads of the trim scan -/

theorem scanMinReads_fst (counts : Image) (cx cy : Int) :
    ∀ (fuel : Nat) (off : Int),
      (scanMinReads counts cx cy fuel off).map Prod.fst = scanMin counts cx cy fuel off := by
  intro fuel
  induction fuel with
  | zero => intro off; rfl
  | succ fuel ih =>
    intro off
    rw [scanMinReads, scanMin]
    split
    · rw [← ih (off + 1), Option.map_map]; rfl
    · rfl

theorem scanMaxReads_fst (counts : Image) (cx cy : Int) :
    ∀ (fuel : Nat) (off : Int),
      (scanMaxReads counts cx cy fuel off).map Prod.fst = scanMax counts cx cy fuel off := by
  intro fuel
  induction fuel with
  | zero => intro off; rfl
  | succ fuel ih =>
    intro off
    rw [scanMaxReads, scanMax]
    split
    · rw [← ih (off - 1), Option.map_map]; rfl
    · rfl

/-- Every read of the backward scan lies at or above slice `-1` and below the size. -/
theorem scanMaxReads_ge_neg_one (counts : Image) (cx cy : Int) :
    ∀ (fuel : Nat) (off : Int) (r : Int × List Int), 0 ≤ off → off ≤ counts.sizeZ →
      scanMaxReads counts cx cy fuel off = some r →
      ∀ z ∈ r.2, -1 ≤ z ∧ z < counts.sizeZ := by
  intro fuel
  induction fuel with
  | zero => intro off r _ _ h; simp [scanMaxReads] at h
  | succ fuel ih =>
    intro off r h0 hle h
    rw [scanMaxReads] at h
    by_cases hc : counts.data cx cy (off - 1) = 0 ∧ off > 0
    · rw [if_pos hc, Option.map_eq_some'] at h
      obtain ⟨r', hr', hr⟩ := h
      have ih' := ih (off - 1) r' (by omega) (by omega) hr'
      rw [← hr]
      intro z hz
      rcases List.mem_cons.mp hz with rfl | hz
      · constructor <;> omega
      · exact ih' z hz
    · rw [if_neg hc] at h
      have hr : r = (off, [off - 1]) := (Option.some.inj h).symm
      rw [hr]
      intro z hz
      have hz' : z = off - 1 := by simpa using hz
      rw [hz']
      constructor <;> omega

/-- With a central column that is zero on every slice below `off`, the backward scan
started at `off` returns `0` and reads slice `-1`. -/
theorem scanMaxReads_all_zero (counts : Image) (cx cy : Int) :
    ∀ (fuel : Nat) (off : Int), 0 ≤ off → off.toNat < fuel →
      (∀ z : Int, 0 ≤ z → z < off → counts.data cx cy z = 0) →
      ∃ reads : List Int, scanMaxReads counts cx cy fuel off = some (0, reads) ∧
        (-1 : Int) ∈ reads := by
  intro fuel
  induction fuel with
  | zero => intro off _ hf _; exact absurd hf (Nat.not_lt_zero _)
  | succ fuel ih =>
    intro off h0 hf hzero
    rw [scanMaxReads]
    by_cases hpos : off > 0
    · have hc : counts.data cx cy (off - 1) = 0 ∧ off > 0 :=
        ⟨hzero (off - 1) (by omega) (by omega), hpos⟩
      obtain ⟨reads, hr, hmem⟩ := ih (off - 1) (by omega) (by omega)
        (fun z hz hlt => hzero z hz (by omega))
      rw [if_pos hc, hr]
      exact ⟨(off - 1) :: reads, rfl, List.mem_cons_of_mem _ hmem⟩
    · have hc : ¬ (counts.data cx cy (off - 1) = 0 ∧ off > 0) := fun h => hpos h.2
      have h00 : off = 0 := by omega
      rw [if_neg hc, h00]
      exact ⟨[0 - 1], rfl, by simp⟩

theorem extents_trimmed_empty :
    extents (trim 1 volumeA) [trim 1 volumeA] = (1, 1) := by
  norm_num [extents, extentStep, image_min_extent, image_max_extent, trim, subimage,
    Image.clone, volumeA]

theorem pad_min_z_trimmed_empty : pad_min_z (trim 1 volumeA) [trim 1 volumeA] = 1 := by
  simp only [pad_min_z, min_extent, extents_trimmed_empty]
  norm_num [image_min_extent, toInt, trim, subimage, Image.clone, volumeA]

theorem pad_max_z_trimmed_empty : pad_max_z (trim 1 volumeA) [trim 1 volumeA] = 1 := by
  simp only [pad_max_z, max_extent, extents_trimmed_empty]
  norm_num [image_max_extent, toInt, trim, subimage, Image.clone, volumeA]

theorem contributions_trimmed_empty (x y z : Int) :
    contributions sliceResampler (trim 1 volumeA) [trim 1 volumeA] x y z =
      [unique_value, unique_value] := by
  simp only [contributions, resampledAt, paddedTarget, pad_min_z_trimmed_empty,
    pad_max_z_trimmed_empty, List.map_cons, List.map_nil]
  have h1 : ∀ k : Int, ¬ (0 ≤ x ∧ x < 1 ∧ 0 ≤ y ∧ y < 1 ∧ 0 ≤ k ∧ k < 2 - 2 * 1) := by
    intro k; omega
  have h2 : ¬ (0 ≤ x ∧ x < 0 + 1 ∧ 0 ≤ y ∧ y < 0 + 1 ∧ 1 ≤ z ∧ z < 1 + (2 - 2 * 1)) := by
    omega
  simp only [sliceResampler, pad, Image.grid, trim, subimage, Image.clone, volumeA,
    if_neg (h1 _), if_neg h2]

theorem counts_trimmed_empty (b : Bool) :
    (accumulate sliceResampler b (trim 1 volumeA) [trim 1 volumeA]).counts.sizeZ = 2 ∧
      central_x (accumulate sliceResampler b (trim 1 volumeA) [trim 1 volumeA]).counts = 0 ∧
      central_y (accumulate sliceResampler b (trim 1 volumeA) [trim 1 volumeA]).counts = 0 ∧
      ∀ x y z : Int,
        (accumulate sliceResampler b (trim 1 volumeA) [trim 1 volumeA]).counts.data x y z
          = 0 := by
  obtain ⟨gx, gy, gz, _, _⟩ := grid_fields
    (accumulate_counts_grid sliceResampler b (trim 1 volumeA) [trim 1 volumeA])
  have hP : (paddedTarget (trim 1 volumeA) [trim 1 volumeA]).sizeX = 1 ∧
      (paddedTarget (trim 1 volumeA) [trim 1 volumeA]).sizeY = 1 ∧
      (paddedTarget (trim 1 volumeA) [trim 1 volumeA]).sizeZ = 2 := by
    simp only [paddedTarget, pad_min_z_trimmed_empty, pad_max_z_trimmed_empty]
    exact ⟨rfl, rfl, rfl⟩
  refine ⟨by rw [gz, hP.2.2], by unfold central_x; rw [gx, hP.1]; rfl,
    by unfold central_y; rw [gy, hP.2.1]; rfl, ?_⟩
  intro x y z
  rw [(accumulate_counts_nonneg sliceResampler b (trim 1 volumeA) [trim 1 volumeA] x y z).2,
    contributions_trimmed_empty]
  simp [covering]

theorem off_z_max_reads_trimmed_empty (b : Bool) :
    off_z_max_reads (accumulate sliceResampler b (trim 1 volumeA) [trim 1 volumeA]).counts =
      some (0, [1, 0, -1]) := by
  obtain ⟨hsz, hcx, hcy, hzero⟩ := counts_trimmed_empty b
  simp only [off_z_max_reads, scanFuel, hsz, hcx, hcy]
  have hfuel : (2 : Int).toNat + 1 = 3 := rfl
  rw [hfuel]
  simp [scanMaxReads, hzero]

/-- C16 fails on the code for a central column that is entirely zero. For the `1 x 1 x 1`
volume of counts holding `0` the forward scan reads slice `0` only, and the backward scan
reads slice `0` and then slice `-1`, which is outside `[0, sizeZ)`: the loop condition
reads `counts(cx, cy, off_z_max - 1)` before it tests `off_z_max > 0`. The same happens in
the pipeline for two `1 x 1 x 2` volumes with margin `1`: `counts` has two slices, all
zero, and the backward scan reads slices `1`, `0`, `-1`. -/
theorem backward_scan_reads_slice_minus_one :
    1 ≤ countsZ.sizeZ ∧
      off_z_min_reads countsZ = some (0, [0]) ∧
      off_z_max_reads countsZ = some (0, [0, -1]) ∧
      ¬ (0 ≤ (-1 : Int) ∧ (-1 : Int) < countsZ.sizeZ) ∧
      (accumulate sliceResampler false (trim 1 volumeA) [trim 1 volumeA]).counts.sizeZ = 2 ∧
      off_z_max_reads
          (accumulate sliceResampler false (trim 1 volumeA) [trim 1 volumeA]).counts =
        some (0, [1, 0, -1]) ∧
      off_z_max_reads
          (accumulate sliceResampler true (trim 1 volumeA) [trim 1 volumeA]).counts =
        some (0, [1, 0, -1]) := by
  refine ⟨by decide, ?_, ?_, by decide, (counts_trimmed_empty false).1,
    off_z_max_reads_trimmed_empty false, off_z_max_reads_trimmed_empty true⟩
  · simp [off_z_min_reads, scanMinReads, scanFuel, countsZ, central_x, central_y]
  · simp [off_z_max_reads, scanMaxReads, scanFuel, countsZ, central_x, central_y]

/-! ## Independence of the crop range from the mode -/

theorem stitchTrimmed_grid_modes (R : Resampler) (image0 : Image) (images : List Image) :
    (stitchTrimmed R true image0 images).map Image.grid =
      (stitchTrimmed R false image0 images).map Image.grid := by
  obtain ⟨h1, h2⟩ := off_z_congr (accumulate R true image0 images).counts
    (accumulate R false image0 images).counts
    (by rw [accumulate_counts_grid, accumulate_counts_grid])
    (fun x y z => counts_zero_iff_modes R image0 images x y z)
  obtain ⟨⟨zmin, hmin⟩, zmax, hmax⟩ := off_z_total (accumulate R false image0 images).counts
  obtain ⟨tx, ty, _, go, gs⟩ := grid_fields
    ((accumulate_target_grid R true image0 images).trans
      (accumulate_target_grid R false image0 images).symm)
  simp only [stitchTrimmed, h1, h2, hmin, hmax, Option.map_some', Option.some.injEq]
  simp only [Image.grid, subimage, Image.clone, finalTarget, div, Grid.mk.injEq]
  exact ⟨tx, ty, trivial, by rw [go, gs], gs⟩

theorem stitchMain_eq_map (R : Resampler) (margin : Int) (b : Bool)
    (loaded temp : Image) (rest : List Image) :
    stitchMain R margin b (loaded :: temp :: rest) =
      (stitchTrimmed R b (trim margin loaded) ((temp :: rest).map (trim margin))).map
        (fun target =>
          { loads := (loaded :: temp :: rest).length, saved := some target, exitCode := 0 }) := by
  simp only [stitchMain]
  cases stitchTrimmed R b (trim margin loaded) ((temp :: rest).map (trim margin)) <;> rfl

/-- C17: for the same inputs the crop range and the size of the output do not depend on
`averageOverlap`. After the accumulation loop a voxel's count is `0` in averaging mode
exactly when it is `0` in first-contributor mode; both scans return the same
`off_z_min` and `off_z_max`; and the cropped outputs of the two modes have the same
geometry, for the trimmed volumes and for a whole run of `main` with any margin. -/
theorem crop_range_same_in_both_modes (R : Resampler) (image0 : Image)
    (images : List Image) :
    (∀ x y z : Int, (accumulate R true image0 images).counts.data x y z = 0 ↔
        (accumulate R false image0 images).counts.data x y z = 0) ∧
      off_z_min (accumulate R true image0 images).counts =
        off_z_min (accumulate R false image0 images).counts ∧
      off_z_max (accumulate R true image0 images).counts =
        off_z_max (accumulate R false image0 images).counts ∧
      (stitchTrimmed R true image0 images).map Image.grid =
        (stitchTrimmed R false image0 images).map Image.grid ∧
      ∀ (margin : Int) (files : List Image),
        (stitchMain R margin true files).map (fun o => o.saved.map Image.grid) =
          (stitchMain R margin false files).map (fun o => o.saved.map Image.grid) := by
  obtain ⟨h1, h2⟩ := off_z_congr (accumulate R true image0 images).counts
    (accumulate R false image0 images).counts
    (by rw [accumulate_counts_grid, accumulate_counts_grid])
    (fun x y z => counts_zero_iff_modes R image0 images x y z)
  refine ⟨fun x y z => counts_zero_iff_modes R image0 images x y z, h1, h2,
    stitchTrimmed_grid_modes R image0 images, ?_⟩
  intro margin files
  match files with
  | [] => rfl
  | [_] => rfl
  | loaded :: temp :: rest =>
    have hg := congrArg (Option.map (fun g : Grid => some g))
      (stitchTrimmed_grid_modes R (trim margin loaded) ((temp :: rest).map (trim margin)))
    rw [Option.map_map, Option.map_map] at hg
    rw [stitchMain_eq_map, stitchMain_eq_map, Option.map_map, Option.map_map]
    exact hg

/-! ## Order of the later volumes in averaging mode -/

theorem extentStep_eq (ext : ℚ × ℚ) (image : Image) :
    extentStep ext image =
      (min image.originZ ext.1, max (image.originZ + image.sizeZ * image.spacingZ) ext.2) := by
  simp only [extentStep]
  congr 1
  · split
    · next h => exact (min_eq_left (le_of_lt h)).symm
    · next h => exact (min_eq_right (not_lt.mp h)).symm
  · split
    · next h => exact (max_eq_left (le_of_lt h)).symm
    · next h => exact (max_eq_right (not_lt.mp h)).symm

theorem extentStep_comm (ext : ℚ × ℚ) (a b : Image) :
    extentStep (extentStep ext a) b = extentStep (extentStep ext b) a := by
  rw [extentStep_eq, extentStep_eq, extentStep_eq, extentStep_eq]
  simp only
  rw [min_left_comm, max_left_comm]

/-- The extents, and with them the padded target grid, do not depend on the order of
the later volumes. -/
theorem paddedTarget_perm (image0 : Image) (images images' : List Image)
    (hperm : images.Perm images') :
    paddedTarget image0 images = paddedTarget image0 images' := by
  have hext : extents image0 images = extents image0 images' :=
    List.Perm.foldl_eq' hperm (fun x _ y _ e => extentStep_comm e x y) _
  simp only [paddedTarget, pad_min_z, pad_max_z, min_extent, max_extent, hext]

theorem covering_contributions_perm (R : Resampler) (image0 : Image)
    (images images' : List Image) (hperm : images.Perm images') (x y z : Int) :
    (covering (contributions R image0 images x y z)).Perm
      (covering (contributions R image0 images' x y z)) := by
  simp only [covering, contributions, resampledAt, paddedTarget_perm image0 images images' hperm]
  exact ((hperm.map _).cons _).filter _

theorem accumulate_avg_perm (R : Resampler) (image0 : Image)
    (images images' : List Image) (hperm : images.Perm images') (x y z : Int) :
    (accumulate R true image0 images).target.data x y z =
        (accumulate R true image0 images').target.data x y z ∧
      (accumulate R true image0 images).counts.data x y z =
        (accumulate R true image0 images').counts.data x y z := by
  have hp := covering_contributions_perm R image0 images images' hperm x y z
  rw [(accumulate_avg R image0 images x y z).1, (accumulate_avg R image0 images x y z).2,
    (accumulate_avg R image0 images' x y z).1, (accumulate_avg R image0 images' x y z).2,
    hp.sum_eq, hp.length_eq]
  exact ⟨rfl, rfl⟩

/-- C18: in averaging mode, with the first volume fixed, a permutation of the later
volumes changes neither the target grid nor, at any voxel, the accumulated `target` and
`counts`, the finalised `counts` or the finalised `target` (exact arithmetic, each
volume resampled to the same values). -/
theorem averaging_ignores_order_of_later_volumes (R : Resampler) (image0 : Image)
    (images images' : List Image) (hperm : images.Perm images') :
    (paddedTarget image0 images).grid = (paddedTarget image0 images').grid ∧
      ∀ x y z : Int,
        (accumulate R true image0 images).target.data x y z =
            (accumulate R true image0 images').target.data x y z ∧
          (accumulate R true image0 images).counts.data x y z =
            (accumulate R true image0 images').counts.data x y z ∧
          (finalCounts (accumulate R true image0 images)).data x y z =
            (finalCounts (accumulate R true image0 images')).data x y z ∧
          (finalized R true image0 images).data x y z =
            (finalized R true image0 images').data x y z := by
  refine ⟨by rw [paddedTarget_perm image0 images images' hperm], ?_⟩
  intro x y z
  obtain ⟨ht, hc⟩ := accumulate_avg_perm R image0 images images' hperm x y z
  have hfc : (finalCounts (accumulate R true image0 images)).data x y z =
      (finalCounts (accumulate R true image0 images')).data x y z := by
    rw [finalCounts_data, finalCounts_data, hc]
  refine ⟨ht, hc, hfc, ?_⟩
  rw [finalized, finalized, finalTarget_data, finalTarget_data, ht, hfc]

theorem averaging_ignores_order_of_later_volumes_witness :
    [volumeB, volumeT].Perm [volumeT, volumeB] ∧
      ∀ x y z : Int,
        (finalized sliceResampler true volumeA [volumeB, volumeT]).data x y z =
          (finalized sliceResampler true volumeA [volumeT, volumeB]).data x y z :=
  ⟨List.Perm.swap _ _ _,
    fun x y z => ((averaging_ignores_order_of_later_volumes sliceResampler volumeA
      [volumeB, volumeT] [volumeT, volumeB] (List.Perm.swap _ _ _)).2 x y z).2.2.2⟩

/-! ## The same volume twice -/

end Stitching
